import Mathlib

/-!
Verification of the `3BougsMedia/logger` TypeScript repository.

This file gives a shallow embedding of the parts of the source that the
checked properties are about:

* `src/formatters/jsonl.ts`   — `formatJSONL`
* `src/formatters/loki.ts`    — `formatLokiPayload`
* `src/utils/retry.ts`        — `retryWithBackoff`
* `src/transports/loki.ts`    — `LokiTransport` (`log`, `sendBatch`, `flush`,
  the batch-timer tick)
* `src/logger.ts`             — `Logger.createEntry`, `Logger.error`

Modelling conventions:

* JavaScript objects are embedded as ordered association lists
  (`List (key × value)`), with JS insert-or-assign semantics: assigning to an
  existing key updates the value in place and keeps the key's original
  position; assigning a fresh key appends it.  This is exactly the own-property
  order that `JSON.stringify` and object spread observe, and also the
  insertion-order iteration of a JS `Map`.
* Timestamps are embedded as their epoch-millisecond value (the result of
  `new Date(ts).getTime()` on the ISO string the source stores), which is the
  only view of a timestamp the sorting comparator and `toNanoseconds` use.
* `Array.prototype.sort` is required by ECMA-262 (ES2019) to be a stable sort
  consistent with the comparator; it is embedded as a stable insertion sort by
  the comparator's key.
* Asynchronous delivery is embedded as an oracle `Nat → Except String Unit`
  mapping the index of an HTTP attempt (within one retry sequence) to its
  outcome.  Timer/`await` interleavings are not modelled; the state-machine
  functions below are the sequential semantics of the corresponding methods.
-/

/-- A JSON-ish scalar value, the payload of metadata / label fields. -/
inductive JsonValue where
  | vNull : JsonValue
  | vBool : Bool → JsonValue
  | vNum : Int → JsonValue
  | vStr : String → JsonValue
deriving DecidableEq, Repr

/-- JS truthiness of an embedded value (`null`, `false`, `0`, `""` are falsy). -/
def JsonValue.truthy : JsonValue → Bool
  | .vNull => false
  | .vBool b => b
  | .vNum n => decide (n ≠ 0)
  | .vStr s => decide (s ≠ "")

/-- A JS object: ordered own-property list. -/
abbrev JsObject := List (String × JsonValue)

/-- JS property read: first (hence, for objects built by `assocSet`, only)
binding of the key. -/
def assocGet {κ β : Type} [DecidableEq κ] (m : List (κ × β)) (k : κ) : Option β :=
  (m.find? (fun p => decide (p.1 = k))).map Prod.snd

/-- JS property write / `Map.set`: update in place when the key exists
(keeping its position), append otherwise. -/
def assocSet {κ β : Type} [DecidableEq κ] (m : List (κ × β)) (k : κ) (v : β) :
    List (κ × β) :=
  if m.any (fun p => decide (p.1 = k)) then
    m.map (fun p => if p.1 = k then (k, v) else p)
  else m ++ [(k, v)]

/-- JS object spread `{...o, ...m}`: assign every binding of `m` onto `o`,
in `m`'s order. -/
def jsSpread {κ β : Type} [DecidableEq κ] (o m : List (κ × β)) : List (κ × β) :=
  m.foldl (fun acc p => assocSet acc p.1 p.2) o

/-- `LogEntry` of `src/types.ts` (timestamp as epoch milliseconds, level as its
lowercase string value). -/
structure LogEntry where
  timestamp : Nat
  level : String
  service : String
  message : String
  metadata : Option JsObject
deriving DecidableEq, Repr

/-- `toNanoseconds` of `src/utils/timestamp.ts`: epoch milliseconds times
10^6 (the source renders the number as a string; the numeric value is kept). -/
def toNanoseconds (ms : Nat) : Nat := ms * 1000000

/-- `formatJSONL` of `src/formatters/jsonl.ts`: the four reserved fields in
source order, then the metadata spread on top (`{...reserved, ...metadata}`). -/
def formatJSONL (e : LogEntry) : JsObject :=
  jsSpread
    [("timestamp", .vNum (Int.ofNat e.timestamp)), ("level", .vStr e.level),
     ("service", .vStr e.service), ("message", .vStr e.message)]
    (e.metadata.getD [])

/-- `entry.metadata?.event` of `src/formatters/loki.ts`. -/
def eventOf (e : LogEntry) : Option JsonValue :=
  e.metadata.bind (fun m => assocGet m "event")

/-- The label object of one entry in `formatLokiPayload`:
`{ service, level, ...(event && { event }), ...staticLabels }`. -/
def buildLabels (e : LogEntry) (staticLabels : List (String × String)) : JsObject :=
  let base : JsObject := [("service", .vStr e.service), ("level", .vStr e.level)]
  let base2 : JsObject :=
    match eventOf e with
    | some v => if v.truthy then assocSet base "event" v else base
    | none => base
  jsSpread base2 (staticLabels.map (fun p => (p.1, JsonValue.vStr p.2)))

/-- The log line of one entry in a Loki stream:
`{ message: entry.message, ...(entry.metadata && { ...entry.metadata }) }`. -/
def logLineOf (e : LogEntry) : JsObject :=
  jsSpread [("message", .vStr e.message)] (e.metadata.getD [])

/-- One `[toNanoseconds(ts), JSON.stringify(line)]` pair of a stream. -/
def valueOf (e : LogEntry) : Nat × JsObject :=
  (toNanoseconds e.timestamp, logLineOf e)

/-- One Loki stream: label object plus timestamped lines. -/
structure LokiStream where
  stream : JsObject
  values : List (Nat × JsObject)
deriving DecidableEq, Repr

/-- The Loki push payload. -/
structure LokiPushPayload where
  streams : List LokiStream
deriving DecidableEq, Repr

/-- One step of the grouping loop of `formatLokiPayload`:
`group = streamMap.get(key) || []; group.push(entry); streamMap.set(key, group)`.
The `Map` is embedded as its insertion-ordered binding list.  The map key in
the source is `JSON.stringify(labels)`, which for these string-keyed objects
is in bijection with the ordered binding list itself, so the label object is
used as the key directly. -/
def insertGroup (m : List (JsObject × List LogEntry)) (k : JsObject) (e : LogEntry) :
    List (JsObject × List LogEntry) :=
  assocSet m k ((assocGet m k).getD [] ++ [e])

/-- The grouping loop of `formatLokiPayload` over the entry list. -/
def groupEntriesAux (key : LogEntry → JsObject) (m : List (JsObject × List LogEntry)) :
    List LogEntry → List (JsObject × List LogEntry)
  | [] => m
  | e :: l => groupEntriesAux key (insertGroup m (key e) e) l

/-- `formatLokiPayload` of `src/formatters/loki.ts`: group by label object,
then emit one stream per group in map (= first-occurrence) order. -/
def formatLokiPayload (entries : List LogEntry) (staticLabels : List (String × String)) :
    LokiPushPayload :=
  ⟨(groupEntriesAux (fun e => buildLabels e staticLabels) [] entries).map
      (fun g => ⟨g.1, g.2.map valueOf⟩)⟩

/-- The loop body of `retryWithBackoff` (`src/utils/retry.ts`), by recursion on
the remaining retry budget (`retries - attempt`).  Returns
(number of invocations of `fn`, the sleeps performed in order, the final
result — `Except.error` models the re-thrown `lastError`). -/
def retryAux {α : Type} (fn : Nat → Except String α) (baseDelay attempt : Nat) :
    Nat → Nat × List Nat × Except String α
  | 0 =>
    match fn attempt with
    | .ok v => (1, [], .ok v)
    | .error e => (1, [], .error e)
  | remaining + 1 =>
    match fn attempt with
    | .ok v => (1, [], .ok v)
    | .error _ =>
      let r := retryAux fn baseDelay (attempt + 1) remaining
      (r.1 + 1, baseDelay * 2 ^ attempt :: r.2.1, r.2.2)

/-- `retryWithBackoff(fn, retries, baseDelay)`: attempts `0..retries`, sleeping
`baseDelay * 2^attempt` after each failed non-final attempt. -/
def retryWithBackoff {α : Type} (fn : Nat → Except String α) (retries baseDelay : Nat) :
    Nat × List Nat × Except String α :=
  retryAux fn baseDelay 0 retries

/-- The stable sort `entries.sort((a, b) => ta - tb)` of `sendBatch`:
ordered insertion, earlier elements inserted in front of later equal ones. -/
def insertEntry (a : LogEntry) : List LogEntry → List LogEntry
  | [] => [a]
  | b :: l => if a.timestamp ≤ b.timestamp then a :: b :: l else b :: insertEntry a l

/-- Stable insertion sort by timestamp (the ECMA-262 contract of
`Array.prototype.sort` with the timestamp comparator). -/
def sortEntries : List LogEntry → List LogEntry
  | [] => []
  | a :: l => insertEntry a (sortEntries l)

/-- The configuration of a `LokiTransport` relevant to the checked claims. -/
structure LokiConfigState where
  batchSize : Nat
  retries : Nat
  staticLabels : List (String × String)
deriving DecidableEq, Repr

/-- The observable state of a `LokiTransport`.  `sentBatches` records, in
order, each snapshot taken for delivery (delivery initiated); `sentPayloads`
records the payload handed to the wire for each such snapshot;
`droppedBatches`/`reportedErrors` record the `console.error` path after retry
exhaustion. -/
structure LokiState where
  config : LokiConfigState
  batch : List LogEntry
  isFlushing : Bool
  timerActive : Bool
  sentBatches : List (List LogEntry)
  sentPayloads : List LokiPushPayload
  droppedBatches : List (List LogEntry)
  reportedErrors : List String
deriving DecidableEq, Repr

namespace LokiTransport

/-- `LokiTransport.sendBatch`, with delivery given by the oracle `deliver`.
Returns the new state, the number of HTTP attempts, and the backoff sleeps.
The guard, the snapshot-and-reset, the sort, the payload build, the retried
delivery and the drop-and-report on exhaustion follow the source line by
line; the `try/catch` around `retryWithBackoff` makes the function total
(no exception reaches the caller). -/
def sendBatch (deliver : Nat → Except String Unit) (s : LokiState) :
    LokiState × Nat × List Nat :=
  if s.batch.isEmpty || s.isFlushing then (s, 0, [])
  else
    let entries := s.batch
    let sorted := sortEntries entries
    let payload := formatLokiPayload sorted s.config.staticLabels
    let s2 : LokiState :=
      { s with batch := [],
               sentBatches := s.sentBatches ++ [entries],
               sentPayloads := s.sentPayloads ++ [payload] }
    let r := retryWithBackoff deliver s.config.retries 1000
    match r.2.2 with
    | .ok _ => (s2, r.1, r.2.1)
    | .error e =>
      ({ s2 with droppedBatches := s2.droppedBatches ++ [sorted],
                 reportedErrors := s2.reportedErrors ++ [e] }, r.1, r.2.1)

/-- `LokiTransport.log`: push onto the batch; when the batch has reached
`batchSize`, trigger `sendBatch` immediately (fire-and-forget: the `.catch`
handler absorbs any rejection, and the function is total, so the call never
fails visibly to, nor blocks, the caller). -/
def log (deliver : Nat → Except String Unit) (s : LokiState) (e : LogEntry) :
    LokiState × Nat × List Nat :=
  let s1 : LokiState := { s with batch := s.batch ++ [e] }
  if s1.config.batchSize ≤ s1.batch.length then sendBatch deliver s1
  else (s1, 0, [])

/-- One tick of the interval started by `LokiTransport.startBatchTimer`:
fires only while the interval is installed, and triggers `sendBatch` only
when the batch is non-empty. -/
def timerTick (deliver : Nat → Except String Unit) (s : LokiState) :
    LokiState × Nat × List Nat :=
  if s.timerActive && decide (0 < s.batch.length) then sendBatch deliver s
  else (s, 0, [])

/-- `LokiTransport.flush`: clear the interval, set `isFlushing`, call
`sendBatch` when the batch is non-empty, await it, clear `isFlushing`. -/
def flush (deliver : Nat → Except String Unit) (s : LokiState) :
    LokiState × Nat × List Nat :=
  let s1 : LokiState := { s with timerActive := false, isFlushing := true }
  let r := if s1.batch.isEmpty then (s1, 0, []) else sendBatch deliver s1
  ({ r.1 with isFlushing := false }, r.2.1, r.2.2)

end LokiTransport

namespace Logger

/-- `Logger.createEntry` of `src/logger.ts`: stamp clock (`now`, epoch ms),
level, service, message, and pass the metadata argument through unchanged. -/
def createEntry (service : String) (now : Nat) (level message : String)
    (metadata : Option JsObject) : LogEntry :=
  ⟨now, level, service, message, metadata⟩

/-- `Logger.error` of `src/logger.ts`: signature
`error(message: string, metadata?: Record<string, unknown>)` — the second
argument is forwarded verbatim as the metadata record; there is no
error-object overload and no third parameter. -/
def error (service : String) (now : Nat) (message : String)
    (metadata : Option JsObject) : LogEntry :=
  createEntry service now "error" message metadata

end Logger

/-- Own enumerable string-keyed properties of a standard JS `Error` instance:
`message` and `stack` are non-enumerable own properties and `name` lives on
the prototype, so using an `Error` where a plain metadata record is expected
(storing it and later spreading it) contributes no keys at all. -/
def errorOwnProps (_message _name _stack : String) : JsObject := []

/-- First-occurrence deduplication, accumulator form.  Modelled from the
spec's words on stream ordering: streams appear in first-occurrence
insertion order of their grouping keys. -/
def firstOccAux {α : Type} [DecidableEq α] (acc : List α) : List α → List α
  | [] => acc
  | a :: l => firstOccAux (if a ∈ acc then acc else acc ++ [a]) l

/-- The grouping keys of a list, in first-occurrence order. -/
def firstOcc {α : Type} [DecidableEq α] (l : List α) : List α := firstOccAux [] l

/-- Two label objects denote the same label mapping (same keys, same values,
key order ignored). -/
def sameLabelMap (a b : JsObject) : Bool :=
  a.all (fun p => decide (assocGet b p.1 = some p.2)) &&
  b.all (fun p => decide (assocGet a p.1 = some p.2))

/-- How the group of a key grows: existing group extended, fresh group created. -/
def groupJoin (o : Option (List LogEntry)) (f : List LogEntry) : Option (List LogEntry) :=
  match o with
  | some g => some (g ++ f)
  | none => if f.isEmpty then none else some f

/-- Delivery oracle that always succeeds (used for concrete instances). -/
def wDeliver : Nat → Except String Unit := fun _ => Except.ok ()

/-- Error text per attempt for a permanently failing delivery. -/
def wErr : Nat → String := fun _ => "boom"

def wEntryA : LogEntry := ⟨5, "info", "svc", "a", none⟩

def wEntryB : LogEntry := ⟨3, "info", "svc", "b", none⟩

/-- A transport state with two buffered entries (out of timestamp order),
batch size 10, one retry. -/
def wState : LokiState := ⟨⟨10, 1, []⟩, [wEntryA, wEntryB], false, true, [], [], [], []⟩

/-- A transport state one entry below its batch-size threshold of 2. -/
def wState7 : LokiState := ⟨⟨2, 1, []⟩, [wEntryA], false, true, [], [], [], []⟩

def c1Entry : LogEntry := ⟨1000, "info", "svc", "hello", none⟩

/-- A transport with one buffered entry, default-like config, timer running. -/
def c1State : LokiState := ⟨⟨100, 3, []⟩, [c1Entry], false, true, [], [], [], []⟩

/-- The entry the facade produces for
`logger.error("Operation failed", new Error("Something went wrong"))`. -/
def c2Entry : LogEntry :=
  Logger.error "test-service" 0 "Operation failed"
    (some (errorOwnProps "Something went wrong" "Error" "stacktrace"))

/-- An entry whose metadata carries a key named `message`. -/
def c8Entry : LogEntry :=
  ⟨7, "info", "svc", "real", some [("message", .vStr "fake"), ("x", .vNum 1)]⟩

def c9e1 : LogEntry := ⟨1, "info", "svc", "m1", some [("event", .vStr "")]⟩

def c9e2 : LogEntry := ⟨2, "info", "svc", "m2", none⟩

def c9static : List (String × String) := [("env", "prod")]

/-- Static labels whose `event` key comes after another key. -/
def c6static : List (String × String) := [("foo", "y"), ("event", "x")]

def c6e1 : LogEntry := ⟨1, "info", "svc", "m1", some [("event", .vStr "x")]⟩

def c6e2 : LogEntry := ⟨2, "info", "svc", "m2", none⟩

def c6labels1 : JsObject :=
  [("service", .vStr "svc"), ("level", .vStr "info"),
   ("event", .vStr "x"), ("foo", .vStr "y")]

def c6labels2 : JsObject :=
  [("service", .vStr "svc"), ("level", .vStr "info"),
   ("foo", .vStr "y"), ("event", .vStr "x")]

section AssocLemmas

variable {κ β : Type} [DecidableEq κ]

theorem assocGet_nil (k : κ) : assocGet ([] : List (κ × β)) k = none := rfl

theorem assocGet_cons (p : κ × β) (t : List (κ × β)) (k : κ) :
    assocGet (p :: t) k = if p.1 = k then some p.2 else assocGet t k := by
  by_cases h : p.1 = k
  · rw [assocGet, List.find?_cons_of_pos _ (by simp [h]), if_pos h]
    rfl
  · rw [assocGet, List.find?_cons_of_neg _ (by simp [h]), if_neg h]
    rfl

theorem any_key_eq (m : List (κ × β)) (k : κ) :
    (m.any fun p => decide (p.1 = k)) = true ↔ k ∈ m.map Prod.fst := by
  simp only [List.any_eq_true, decide_eq_true_eq, List.mem_map]

theorem assocGet_map_update_self (k : κ) (v : β) :
    ∀ m : List (κ × β), k ∈ m.map Prod.fst →
      assocGet (m.map fun q => if q.1 = k then (k, v) else q) k = some v := by
  intro m
  induction m with
  | nil => intro h; cases h
  | cons p t ih =>
    intro h
    by_cases hp : p.1 = k
    · rw [List.map_cons, if_pos hp, assocGet_cons]
      simp
    · have h' : k ∈ p.1 :: t.map Prod.fst := by simpa using h
      have ht : k ∈ t.map Prod.fst := by
        rcases List.mem_cons.1 h' with he | ht2
        · exact absurd he.symm hp
        · exact ht2
      simp only [List.map_cons, if_neg hp, assocGet_cons, if_neg hp]
      exact ih ht

theorem assocGet_map_update_ne (k k' : κ) (v : β) (h : ¬ (k' = k)) :
    ∀ m : List (κ × β),
      assocGet (m.map fun q => if q.1 = k then (k, v) else q) k' = assocGet m k' := by
  intro m
  induction m with
  | nil => rfl
  | cons p t ih =>
    by_cases hp : p.1 = k
    · have h1 : ¬ (k = k') := fun he => h he.symm
      have h2 : ¬ (p.1 = k') := fun he => h (hp ▸ he).symm |>.elim
      simp only [List.map_cons, if_pos hp, assocGet_cons, if_neg h1, if_neg h2]
      exact ih
    · simp only [List.map_cons, if_neg hp, assocGet_cons]
      by_cases hp' : p.1 = k'
      · simp [hp']
      · simp only [if_neg hp']
        exact ih

theorem assocGet_append_self (k : κ) (v : β) :
    ∀ m : List (κ × β), ¬ (k ∈ m.map Prod.fst) →
      assocGet (m ++ [(k, v)]) k = some v := by
  intro m
  induction m with
  | nil => intro _; simp [assocGet_cons]
  | cons p t ih =>
    intro h
    have hp : ¬ (p.1 = k) := fun he => h (by simp [he])
    have ht : ¬ (k ∈ t.map Prod.fst) := fun hm => h (by simp [hm])
    simp only [List.cons_append, assocGet_cons, if_neg hp]
    exact ih ht

theorem assocGet_append_ne (k k' : κ) (v : β) (h : ¬ (k' = k)) :
    ∀ m : List (κ × β), assocGet (m ++ [(k, v)]) k' = assocGet m k' := by
  intro m
  induction m with
  | nil =>
    have : ¬ (k = k') := fun he => h he.symm
    simp [assocGet_cons, this, assocGet_nil]
  | cons p t ih =>
    simp only [List.cons_append, assocGet_cons, ih]

theorem assocGet_assocSet (m : List (κ × β)) (k k' : κ) (v : β) :
    assocGet (assocSet m k v) k' = if k' = k then some v else assocGet m k' := by
  by_cases h : k' = k
  · subst h
    by_cases hany : (m.any fun p => decide (p.1 = k')) = true
    · rw [assocSet, if_pos hany, if_pos rfl]
      exact assocGet_map_update_self k' v m ((any_key_eq m k').1 hany)
    · rw [assocSet, if_neg hany, if_pos rfl]
      exact assocGet_append_self k' v m (fun hm => hany ((any_key_eq m k').2 hm))
  · by_cases hany : (m.any fun p => decide (p.1 = k)) = true
    · rw [assocSet, if_pos hany, if_neg h]
      exact assocGet_map_update_ne k k' v h m
    · rw [assocSet, if_neg hany, if_neg h]
      exact assocGet_append_ne k k' v h m

theorem map_fst_assocSet_of_mem (m : List (κ × β)) (k : κ) (v : β)
    (h : k ∈ m.map Prod.fst) :
    (assocSet m k v).map Prod.fst = m.map Prod.fst := by
  have hany : (m.any fun p => decide (p.1 = k)) = true := (any_key_eq m k).2 h
  rw [assocSet, if_pos hany, List.map_map]
  apply List.map_congr_left
  intro p _
  by_cases hp : p.1 = k <;> simp [hp]

theorem map_fst_assocSet_of_not_mem (m : List (κ × β)) (k : κ) (v : β)
    (h : ¬ (k ∈ m.map Prod.fst)) :
    (assocSet m k v).map Prod.fst = m.map Prod.fst ++ [k] := by
  have hany : ¬ ((m.any fun p => decide (p.1 = k)) = true) :=
    fun ha => h ((any_key_eq m k).1 ha)
  rw [assocSet, if_neg hany]
  simp

theorem assocGet_jsSpread_of_not_mem (o : List (κ × β)) :
    ∀ (m : List (κ × β)) (k : κ), ¬ (k ∈ m.map Prod.fst) →
      assocGet (jsSpread o m) k = assocGet o k := by
  intro m
  induction m generalizing o with
  | nil => intro k _; rfl
  | cons p t ih =>
    intro k h
    have h1 : ¬ (k ∈ t.map Prod.fst) := fun hm => h (by simp [hm])
    have h2 : ¬ (k = p.1) := fun he => h (by simp [he])
    show assocGet (jsSpread (assocSet o p.1 p.2) t) k = assocGet o k
    rw [ih _ _ h1, assocGet_assocSet, if_neg h2]

theorem assocGet_jsSpread_of_mem (o : List (κ × β)) :
    ∀ (m : List (κ × β)) (k : κ) (v : β), (m.map Prod.fst).Nodup → (k, v) ∈ m →
      assocGet (jsSpread o m) k = some v := by
  intro m
  induction m generalizing o with
  | nil => intro k v _ hm; cases hm
  | cons p t ih =>
    intro k v hnd hm
    rcases List.mem_cons.1 hm with he | hm'
    · have hk : ¬ (k ∈ t.map Prod.fst) := by
        simp only [List.map_cons, List.nodup_cons] at hnd
        rw [← he] at hnd
        exact hnd.1
      show assocGet (jsSpread (assocSet o p.1 p.2) t) k = some v
      rw [assocGet_jsSpread_of_not_mem _ _ _ hk, ← he, assocGet_assocSet, if_pos rfl]
    · have hnd' : (t.map Prod.fst).Nodup := by
        simp only [List.map_cons, List.nodup_cons] at hnd
        exact hnd.2
      exact ih _ _ _ hnd' hm'

theorem assocGet_eq_of_mem :
    ∀ (m : List (κ × β)) (k : κ) (v : β), (m.map Prod.fst).Nodup → (k, v) ∈ m →
      assocGet m k = some v := by
  intro m
  induction m with
  | nil => intro k v _ hm; cases hm
  | cons p t ih =>
    intro k v hnd hm
    rcases List.mem_cons.1 hm with he | hm'
    · rw [← he, assocGet_cons, if_pos rfl]
    · have hkt : k ∈ t.map Prod.fst := List.mem_map.2 ⟨(k, v), hm', rfl⟩
      have hne : ¬ (p.1 = k) := by
        intro he
        simp only [List.map_cons, List.nodup_cons] at hnd
        rw [he] at hnd
        exact hnd.1 hkt
      rw [assocGet_cons, if_neg hne]
      exact ih _ _ (by simp only [List.map_cons, List.nodup_cons] at hnd; exact hnd.2) hm'

end AssocLemmas

theorem firstOccAux_nodup {α : Type} [DecidableEq α] :
    ∀ (l acc : List α), acc.Nodup → (firstOccAux acc l).Nodup := by
  intro l
  induction l with
  | nil => intro acc h; exact h
  | cons a t ih =>
    intro acc h
    show (firstOccAux (if a ∈ acc then acc else acc ++ [a]) t).Nodup
    by_cases ha : a ∈ acc
    · simpa [ha] using ih _ h
    · refine ih _ ?_
      simp [ha, List.nodup_append, h, List.disjoint_singleton]

/-- Keys of an in-progress grouping map after one `insertGroup` step. -/
theorem map_fst_insertGroup (m : List (JsObject × List LogEntry)) (k : JsObject)
    (e : LogEntry) :
    (insertGroup m k e).map Prod.fst =
      if k ∈ m.map Prod.fst then m.map Prod.fst else m.map Prod.fst ++ [k] := by
  by_cases h : k ∈ m.map Prod.fst
  · rw [insertGroup, map_fst_assocSet_of_mem _ _ _ h, if_pos h]
  · rw [insertGroup, map_fst_assocSet_of_not_mem _ _ _ h, if_neg h]

theorem firstOccAux_cons {α : Type} [DecidableEq α] (acc : List α) (a : α) (l : List α) :
    firstOccAux acc (a :: l) = firstOccAux (if a ∈ acc then acc else acc ++ [a]) l := by
  rw [firstOccAux]

/-- The grouping loop emits keys in first-occurrence order. -/
theorem map_fst_groupEntriesAux (key : LogEntry → JsObject) :
    ∀ (l : List LogEntry) (m : List (JsObject × List LogEntry)),
      (groupEntriesAux key m l).map Prod.fst =
        firstOccAux (m.map Prod.fst) (l.map key) := by
  intro l
  induction l with
  | nil => intro m; rfl
  | cons e t ih =>
    intro m
    show (groupEntriesAux key (insertGroup m (key e) e) t).map Prod.fst
        = firstOccAux (m.map Prod.fst) (key e :: t.map key)
    rw [ih, map_fst_insertGroup, firstOccAux_cons]
    congr 1
    by_cases h : key e ∈ m.map Prod.fst <;> simp [h]

theorem assocGet_insertGroup (m : List (JsObject × List LogEntry)) (k k' : JsObject)
    (e : LogEntry) :
    assocGet (insertGroup m k' e) k =
      if k = k' then some ((assocGet m k').getD [] ++ [e]) else assocGet m k := by
  rw [insertGroup, assocGet_assocSet]

/-- The group stored under a key is exactly the matching entries, in input
order. -/
theorem assocGet_groupEntriesAux (key : LogEntry → JsObject) :
    ∀ (l : List LogEntry) (m : List (JsObject × List LogEntry)) (k : JsObject),
      assocGet (groupEntriesAux key m l) k =
        groupJoin (assocGet m k) (l.filter (fun e => decide (key e = k))) := by
  intro l
  induction l with
  | nil =>
    intro m k
    show assocGet m k = groupJoin (assocGet m k) []
    cases h : assocGet m k <;> simp [groupJoin, h]
  | cons e t ih =>
    intro m k
    show assocGet (groupEntriesAux key (insertGroup m (key e) e) t) k
        = groupJoin (assocGet m k) ((e :: t).filter (fun x => decide (key x = k)))
    rw [ih]
    by_cases hk : key e = k
    · rw [List.filter_cons_of_pos (by simp [hk])]
      rw [assocGet_insertGroup, if_pos hk.symm, hk]
      cases hget : assocGet m k <;>
        simp [groupJoin, hget, List.append_assoc]
    · rw [List.filter_cons_of_neg (by simp [hk])]
      rw [assocGet_insertGroup, if_neg (fun he => hk he.symm)]

theorem mem_insertEntry (a x : LogEntry) :
    ∀ l : List LogEntry, x ∈ insertEntry a l ↔ x = a ∨ x ∈ l := by
  intro l
  induction l with
  | nil => simp [insertEntry]
  | cons b t ih =>
    by_cases h : a.timestamp ≤ b.timestamp
    · simp [insertEntry, h]
    · simp only [insertEntry, if_neg h, List.mem_cons, ih]
      tauto

theorem pairwise_insertEntry (a : LogEntry) :
    ∀ l : List LogEntry,
      l.Pairwise (fun x y => x.timestamp ≤ y.timestamp) →
      (insertEntry a l).Pairwise (fun x y => x.timestamp ≤ y.timestamp) := by
  intro l
  induction l with
  | nil => intro _; simp [insertEntry]
  | cons b t ih =>
    intro h
    rcases List.pairwise_cons.1 h with ⟨hb, ht⟩
    by_cases hab : a.timestamp ≤ b.timestamp
    · rw [insertEntry, if_pos hab]
      refine List.pairwise_cons.2 ⟨?_, h⟩
      intro x hx
      rcases List.mem_cons.1 hx with he | hxt
      · rw [he]; exact hab
      · exact Nat.le_trans hab (hb x hxt)
    · rw [insertEntry, if_neg hab]
      refine List.pairwise_cons.2 ⟨?_, ih ht⟩
      intro x hx
      rcases (mem_insertEntry a x t).1 hx with he | hxt
      · rw [he]; exact Nat.le_of_not_le hab
      · exact hb x hxt

/-- The batch sort produces a non-decreasing timestamp sequence. -/
theorem sorted_sortEntries :
    ∀ l : List LogEntry,
      (sortEntries l).Pairwise (fun x y => x.timestamp ≤ y.timestamp) := by
  intro l
  induction l with
  | nil => simp [sortEntries]
  | cons a t ih => exact pairwise_insertEntry a _ ih

theorem filter_insertEntry (a : LogEntry) (t : Nat) :
    ∀ l : List LogEntry,
      (insertEntry a l).filter (fun e => decide (e.timestamp = t)) =
        (if a.timestamp = t then [a] else [])
          ++ l.filter (fun e => decide (e.timestamp = t)) := by
  intro l
  induction l with
  | nil =>
    by_cases h : a.timestamp = t <;> simp [insertEntry, h]
  | cons b u ih =>
    by_cases hab : a.timestamp ≤ b.timestamp
    · rw [insertEntry, if_pos hab]
      by_cases h : a.timestamp = t
      · rw [List.filter_cons_of_pos (by simp [h]), if_pos h]
        rfl
      · rw [List.filter_cons_of_neg (by simp [h]), if_neg h]
        rfl
    · rw [insertEntry, if_neg hab]
      by_cases h : a.timestamp = t
      · have hbt : b.timestamp < a.timestamp := Nat.lt_of_not_le hab
        have hbne : ¬ (b.timestamp = t) := by
          intro he
          rw [← h] at he
          exact Nat.ne_of_lt hbt he
        rw [List.filter_cons_of_neg (by simp [hbne]), ih,
            List.filter_cons_of_neg (by simp [hbne])]
      · by_cases hb : b.timestamp = t
        · rw [List.filter_cons_of_pos (by simp [hb]), ih, if_neg h,
              List.filter_cons_of_pos (by simp [hb])]
          rfl
        · rw [List.filter_cons_of_neg (by simp [hb]), ih,
              List.filter_cons_of_neg (by simp [hb])]

/-- Stability of the batch sort: entries with any fixed timestamp keep their
original relative order. -/
theorem filter_sortEntries :
    ∀ (l : List LogEntry) (t : Nat),
      (sortEntries l).filter (fun e => decide (e.timestamp = t)) =
        l.filter (fun e => decide (e.timestamp = t)) := by
  intro l
  induction l with
  | nil => intro t; rfl
  | cons a u ih =>
    intro t
    show (insertEntry a (sortEntries u)).filter (fun e => decide (e.timestamp = t))
        = (a :: u).filter (fun e => decide (e.timestamp = t))
    rw [filter_insertEntry, ih]
    by_cases h : a.timestamp = t
    · rw [if_pos h, List.filter_cons_of_pos (by simp [h])]
      rfl
    · rw [if_neg h, List.filter_cons_of_neg (by simp [h])]
      rfl

/-- The batch sort is a permutation of its input. -/
theorem perm_sortEntries :
    ∀ l : List LogEntry, (sortEntries l).Perm l := by
  intro l
  induction l with
  | nil => exact List.Perm.refl []
  | cons a u ih =>
    show (insertEntry a (sortEntries u)).Perm (a :: u)
    have h1 : ∀ v : List LogEntry, (insertEntry a v).Perm (a :: v) := by
      intro v
      induction v with
      | nil => exact List.Perm.refl _
      | cons b w ihv =>
        by_cases hab : a.timestamp ≤ b.timestamp
        · rw [insertEntry, if_pos hab]
        · rw [insertEntry, if_neg hab]
          exact (List.Perm.cons b ihv).trans (List.Perm.swap a b w)
    exact (h1 (sortEntries u)).trans (List.Perm.cons a ih)

/-- Unfolding: a successful attempt ends the loop at once. -/
theorem retryAux_ok {α : Type} {fn : Nat → Except String α} {attempt : Nat} {v : α}
    (h : fn attempt = Except.ok v) (base : Nat) :
    ∀ r : Nat, retryAux fn base attempt r = (1, [], Except.ok v) := by
  intro r
  cases r <;> simp [retryAux, h]

/-- Unfolding: a failure with empty budget re-throws. -/
theorem retryAux_err_zero {α : Type} {fn : Nat → Except String α} {attempt : Nat}
    {e : String} (h : fn attempt = Except.error e) (base : Nat) :
    retryAux fn base attempt 0 = (1, [], Except.error e) := by
  simp [retryAux, h]

/-- Unfolding: a failure with remaining budget sleeps and recurses. -/
theorem retryAux_err_succ {α : Type} {fn : Nat → Except String α} {attempt : Nat}
    {e : String} (h : fn attempt = Except.error e) (base r : Nat) :
    retryAux fn base attempt (r + 1) =
      ((retryAux fn base (attempt + 1) r).1 + 1,
       base * 2 ^ attempt :: (retryAux fn base (attempt + 1) r).2.1,
       (retryAux fn base (attempt + 1) r).2.2) := by
  simp [retryAux, h]

/-- Retry trace when every attempt fails: one invocation per budget unit plus
the final one, doubling delays, the last error re-thrown. -/
theorem retryAux_all_fail {α : Type} (err : Nat → String) (base : Nat) :
    ∀ (remaining attempt : Nat),
      retryAux (fun i => (Except.error (err i) : Except String α)) base attempt remaining =
        (remaining + 1,
         (List.range remaining).map (fun j => base * 2 ^ (attempt + j)),
         Except.error (err (attempt + remaining))) := by
  intro remaining
  induction remaining with
  | zero => intro attempt; rw [retryAux_err_zero rfl]; rfl
  | succ r ih =>
    intro attempt
    rw [retryAux_err_succ rfl, ih (attempt + 1)]
    refine congrArg₂ Prod.mk rfl (congrArg₂ Prod.mk ?_ ?_)
    · rw [List.range_succ_eq_map, List.map_cons, List.map_map]
      refine congrArg₂ List.cons (by rw [Nat.add_zero]) ?_
      apply List.map_congr_left
      intro j _
      show base * 2 ^ (attempt + 1 + j) = base * 2 ^ (attempt + (j + 1))
      rw [show attempt + 1 + j = attempt + (j + 1) from by omega]
    · rw [show attempt + 1 + r = attempt + (r + 1) from by omega]

/-- `retryWithBackoff` under permanent failure. -/
theorem retryWithBackoff_all_fail {α : Type} (err : Nat → String) (retries base : Nat) :
    retryWithBackoff (fun i => (Except.error (err i) : Except String α)) retries base =
      (retries + 1,
       (List.range retries).map (fun j => base * 2 ^ j),
       Except.error (err retries)) := by
  rw [retryWithBackoff, retryAux_all_fail]
  refine congrArg₂ Prod.mk rfl (congrArg₂ Prod.mk ?_ (by rw [Nat.zero_add]))
  apply List.map_congr_left
  intro j _
  rw [Nat.zero_add]

/-- Retry trace when the first success is the `j`-th invocation: earlier
attempts fail, the `j`-th succeeds, nothing follows it. -/
theorem retryAux_first_success {α : Type} (fn : Nat → Except String α) (base : Nat) :
    ∀ (j remaining attempt : Nat) (v : α), j ≤ remaining →
      (∀ i, i < j → ∃ e, fn (attempt + i) = Except.error e) →
      fn (attempt + j) = Except.ok v →
      retryAux fn base attempt remaining =
        (j + 1, (List.range j).map (fun i => base * 2 ^ (attempt + i)), Except.ok v) := by
  intro j
  induction j with
  | zero =>
    intro remaining attempt v _ _ hok
    rw [Nat.add_zero] at hok
    rw [retryAux_ok hok]
    rfl
  | succ j ih =>
    intro remaining attempt v hle hfail hok
    obtain ⟨e0, he0⟩ := hfail 0 (Nat.succ_pos j)
    rw [Nat.add_zero] at he0
    cases remaining with
    | zero => exact absurd hle (by omega)
    | succ r =>
      rw [retryAux_err_succ he0]
      have hsub := ih r (attempt + 1) v (by omega)
        (fun i hi => by
          obtain ⟨e, he⟩ := hfail (i + 1) (by omega)
          exact ⟨e, by rw [show attempt + 1 + i = attempt + (i + 1) from by omega]; exact he⟩)
        (by rw [show attempt + 1 + j = attempt + (j + 1) from by omega]; exact hok)
      rw [hsub]
      refine congrArg₂ Prod.mk (by omega) (congrArg₂ Prod.mk ?_ rfl)
      rw [List.range_succ_eq_map, List.map_cons, List.map_map]
      refine congrArg₂ List.cons (by rw [Nat.add_zero]) ?_
      apply List.map_congr_left
      intro i _
      show base * 2 ^ (attempt + 1 + i) = base * 2 ^ (attempt + (i + 1))
      rw [show attempt + 1 + i = attempt + (i + 1) from by omega]

theorem sendBatch_guard_noop (deliver : Nat → Except String Unit) (s : LokiState)
    (h : s.batch = [] ∨ s.isFlushing = true) :
    LokiTransport.sendBatch deliver s = (s, 0, []) := by
  have hg : (s.batch.isEmpty || s.isFlushing) = true := by
    rcases h with h | h
    · simp [h]
    · simp [h]
  unfold LokiTransport.sendBatch
  rw [if_pos hg]

/-- The non-guarded run of `sendBatch`: snapshot taken, buffer cleared,
sorted payload handed to the formatter — independent of delivery outcome. -/
theorem sendBatch_run (deliver : Nat → Except String Unit) (s : LokiState)
    (hb : s.batch ≠ []) (hf : s.isFlushing = false) :
    (LokiTransport.sendBatch deliver s).1.batch = [] ∧
    (LokiTransport.sendBatch deliver s).1.sentBatches = s.sentBatches ++ [s.batch] ∧
    (LokiTransport.sendBatch deliver s).1.sentPayloads
      = s.sentPayloads ++ [formatLokiPayload (sortEntries s.batch) s.config.staticLabels] ∧
    (LokiTransport.sendBatch deliver s).1.isFlushing = s.isFlushing ∧
    (LokiTransport.sendBatch deliver s).1.timerActive = s.timerActive ∧
    (LokiTransport.sendBatch deliver s).1.config = s.config := by
  have hbe : s.batch.isEmpty = false := by
    cases hbatch : s.batch with
    | nil => exact absurd hbatch hb
    | cons x xs => rfl
  have hg : ¬ ((s.batch.isEmpty || s.isFlushing) = true) := by
    rw [hbe, hf]
    simp
  unfold LokiTransport.sendBatch
  rw [if_neg hg]
  cases hr : (retryWithBackoff deliver s.config.retries 1000).2.2 <;> simp [hr, hf]
/-- C10: `retryWithBackoff` returns the value of the first successful
invocation of its function and performs no further invocations or delays
after that success; in particular with `retries = 0` the function is invoked
exactly once and, if that invocation fails, its error is re-thrown
immediately with no sleep. -/
theorem c10_retry_first_success :
    (∀ (α : Type) (fn : Nat → Except String α) (retries base j : Nat) (v : α),
      j ≤ retries →
      (∀ i, i < j → ∃ e, fn i = Except.error e) →
      fn j = Except.ok v →
      retryWithBackoff fn retries base
        = (j + 1, (List.range j).map (fun i => base * 2 ^ i), Except.ok v)) ∧
    (∀ (α : Type) (fn : Nat → Except String α) (base : Nat) (e : String),
      fn 0 = Except.error e →
      retryWithBackoff fn 0 base = (1, [], Except.error e)) := by
  constructor
  · intro α fn retries base j v hle hfail hok
    have h := retryAux_first_success fn base j retries 0 v hle
      (fun i hi => by rw [Nat.zero_add]; exact hfail i hi)
      (by rw [Nat.zero_add]; exact hok)
    rw [retryWithBackoff, h]
    refine congrArg₂ Prod.mk rfl (congrArg₂ Prod.mk ?_ rfl)
    apply List.map_congr_left
    intro i _
    rw [Nat.zero_add]
  · intro α fn base e he
    rw [retryWithBackoff, retryAux_err_zero he]

/-- C10 witness: success on the very first attempt with budget left, and a
budget-0 failure, both evaluated concretely. -/
theorem c10_retry_first_success_witness :
    retryWithBackoff (fun _ => (Except.ok 7 : Except String Nat)) 2 1000
        = (1, [], Except.ok 7) ∧
    retryWithBackoff (fun _ => (Except.error "boom" : Except String Nat)) 0 1000
        = (1, [], Except.error "boom") :=
  ⟨c10_retry_first_success.1 Nat (fun _ => Except.ok 7) 2 1000 0 7 (by omega)
      (fun i hi => absurd hi (by omega)) rfl,
   c10_retry_first_success.2 Nat (fun _ => Except.error "boom") 1000 "boom" rfl⟩

/-- C4: against a delivery that fails on every invocation, the retry
mechanism performs exactly `retries + 1` invocations, with the delay before
the `k`-th retry equal to `1000 * 2 ^ (k-1)` ms (the delay list is
`[1000*2^0, …, 1000*2^(retries-1)]`), after which `sendBatch` drops the
(sorted) batch and records the reported error; `sendBatch` is a total
function, so no exception reaches its caller. -/
theorem c4_retry_exhaustion_drops_batch (err : Nat → String) (s : LokiState)
    (hb : s.batch ≠ []) (hf : s.isFlushing = false) :
    (LokiTransport.sendBatch (fun i => Except.error (err i)) s).2.1
        = s.config.retries + 1 ∧
    (LokiTransport.sendBatch (fun i => Except.error (err i)) s).2.2
        = (List.range s.config.retries).map (fun k => 1000 * 2 ^ k) ∧
    (LokiTransport.sendBatch (fun i => Except.error (err i)) s).1.batch = [] ∧
    (LokiTransport.sendBatch (fun i => Except.error (err i)) s).1.droppedBatches
        = s.droppedBatches ++ [sortEntries s.batch] ∧
    (LokiTransport.sendBatch (fun i => Except.error (err i)) s).1.reportedErrors
        = s.reportedErrors ++ [err s.config.retries] := by
  have hbe : s.batch.isEmpty = false := by
    cases hbatch : s.batch with
    | nil => exact absurd hbatch hb
    | cons x xs => rfl
  have hg : ¬ ((s.batch.isEmpty || s.isFlushing) = true) := by
    rw [hbe, hf]
    simp
  unfold LokiTransport.sendBatch
  rw [if_neg hg, retryWithBackoff_all_fail err s.config.retries 1000]
  simp

/-- C4 witness: `retries = 1` exhaustion on a concrete two-entry batch. -/
theorem c4_retry_exhaustion_drops_batch_witness :
    (LokiTransport.sendBatch (fun i => Except.error (wErr i)) wState).2.1
        = wState.config.retries + 1 ∧
    (LokiTransport.sendBatch (fun i => Except.error (wErr i)) wState).2.2
        = (List.range wState.config.retries).map (fun k => 1000 * 2 ^ k) ∧
    (LokiTransport.sendBatch (fun i => Except.error (wErr i)) wState).1.batch = [] ∧
    (LokiTransport.sendBatch (fun i => Except.error (wErr i)) wState).1.droppedBatches
        = wState.droppedBatches ++ [sortEntries wState.batch] ∧
    (LokiTransport.sendBatch (fun i => Except.error (wErr i)) wState).1.reportedErrors
        = wState.reportedErrors ++ [wErr wState.config.retries] :=
  c4_retry_exhaustion_drops_batch wErr wState (by decide) rfl

/-- C3: `sendBatch` is a no-op (state, attempts and sleeps unchanged) when the
buffer is empty or the flushing guard is set; otherwise the buffer is
snapshotted into exactly one new taken batch and reset to empty before any
delivery begins, so every buffered event ends up in exactly that taken batch
and none remains pending. -/
theorem c3_sendBatch_snapshot_and_clear (deliver : Nat → Except String Unit)
    (s : LokiState) :
    (s.batch = [] ∨ s.isFlushing = true →
      LokiTransport.sendBatch deliver s = (s, 0, [])) ∧
    (s.batch ≠ [] → s.isFlushing = false →
      (LokiTransport.sendBatch deliver s).1.batch = [] ∧
      (LokiTransport.sendBatch deliver s).1.sentBatches
          = s.sentBatches ++ [s.batch]) := by
  constructor
  · exact sendBatch_guard_noop deliver s
  · intro hb hf
    exact ⟨(sendBatch_run deliver s hb hf).1, (sendBatch_run deliver s hb hf).2.1⟩

/-- C3 witness: the non-empty, non-flushing branch on a concrete state. -/
theorem c3_sendBatch_snapshot_and_clear_witness :
    (LokiTransport.sendBatch wDeliver wState).1.batch = [] ∧
    (LokiTransport.sendBatch wDeliver wState).1.sentBatches
        = wState.sentBatches ++ [wState.batch] :=
  (c3_sendBatch_snapshot_and_clear wDeliver wState).2 (by decide) rfl

/-- C5: the entry list handed to the payload formatter by `sendBatch` is
`sortEntries` of the snapshot, which is sorted by timestamp ascending and is
stable: entries of any fixed timestamp keep their original relative enqueue
order (and the sort is a permutation — nothing added or lost). -/
theorem c5_batch_sorted_stable (deliver : Nat → Except String Unit) (s : LokiState)
    (hb : s.batch ≠ []) (hf : s.isFlushing = false) :
    (LokiTransport.sendBatch deliver s).1.sentPayloads
      = s.sentPayloads ++ [formatLokiPayload (sortEntries s.batch) s.config.staticLabels] ∧
    (sortEntries s.batch).Pairwise (fun a b => a.timestamp ≤ b.timestamp) ∧
    (∀ t, (sortEntries s.batch).filter (fun e => decide (e.timestamp = t))
        = s.batch.filter (fun e => decide (e.timestamp = t))) ∧
    (sortEntries s.batch).Perm s.batch :=
  ⟨(sendBatch_run deliver s hb hf).2.2.1, sorted_sortEntries _,
   fun t => filter_sortEntries _ t, perm_sortEntries _⟩

/-- C5 witness: concrete out-of-order batch. -/
theorem c5_batch_sorted_stable_witness :
    (LokiTransport.sendBatch wDeliver wState).1.sentPayloads
      = wState.sentPayloads
          ++ [formatLokiPayload (sortEntries wState.batch) wState.config.staticLabels] ∧
    (sortEntries wState.batch).Perm wState.batch :=
  ⟨(c5_batch_sorted_stable wDeliver wState (by decide) rfl).1,
   (c5_batch_sorted_stable wDeliver wState (by decide) rfl).2.2.2⟩

/-- C7: enqueuing an event that brings the buffer to the batch-size threshold
triggers an immediate send — snapshot taken, delivery initiated — with no
timer involvement; below the threshold the call only appends.  `log` is a
total function whose delivery errors are absorbed, so it never fails visibly
to, nor blocks, the caller.  (During `flush` the `isFlushing` guard
deliberately suppresses triggered sends, hence the hypothesis.) -/
theorem c7_threshold_triggers_send (deliver : Nat → Except String Unit)
    (s : LokiState) (e : LogEntry) (hf : s.isFlushing = false) :
    (s.config.batchSize ≤ (s.batch ++ [e]).length →
      (LokiTransport.log deliver s e).1.batch = [] ∧
      (LokiTransport.log deliver s e).1.sentBatches
          = s.sentBatches ++ [s.batch ++ [e]]) ∧
    ((s.batch ++ [e]).length < s.config.batchSize →
      (LokiTransport.log deliver s e).1 = { s with batch := s.batch ++ [e] } ∧
      (LokiTransport.log deliver s e).2 = (0, [])) := by
  constructor
  · intro hlen
    have h1 : LokiTransport.log deliver s e
        = LokiTransport.sendBatch deliver { s with batch := s.batch ++ [e] } := by
      unfold LokiTransport.log
      rw [if_pos hlen]
    have hb : ({ s with batch := s.batch ++ [e] } : LokiState).batch ≠ [] := by
      simp
    have h2 := sendBatch_run deliver { s with batch := s.batch ++ [e] } hb hf
    rw [h1]
    exact ⟨h2.1, h2.2.1⟩
  · intro hlen
    have h1 : ¬ (s.config.batchSize ≤ (s.batch ++ [e]).length) := Nat.not_le.2 hlen
    unfold LokiTransport.log
    rw [if_neg h1]
    exact ⟨rfl, rfl⟩

/-- C7 witness: the second enqueue reaches the threshold and fires the send. -/
theorem c7_threshold_triggers_send_witness :
    (LokiTransport.log wDeliver wState7 wEntryB).1.batch = [] ∧
    (LokiTransport.log wDeliver wState7 wEntryB).1.sentBatches
        = wState7.sentBatches ++ [wState7.batch ++ [wEntryB]] :=
  (c7_threshold_triggers_send wDeliver wState7 wEntryB rfl).1 (by decide)

/-- C1 (failing evaluation): `flush` on a state with a non-empty buffer stops
the timer but performs no final send and leaves the buffer unchanged —
`flush` sets `isFlushing` before calling `sendBatch`, and `sendBatch`'s
`isFlushing` guard then turns the forced final send into a no-op: no snapshot
is taken, no delivery attempted, and the buffer is still non-empty after
`flush` resolves, contrary to the claim (and to the method's own
"Send any remaining logs" comment). -/
theorem c1_flush_skips_final_send :
    (LokiTransport.flush wDeliver c1State).1.batch = [c1Entry] ∧
    (LokiTransport.flush wDeliver c1State).1.sentBatches = [] ∧
    (LokiTransport.flush wDeliver c1State).1.sentPayloads = [] ∧
    (LokiTransport.flush wDeliver c1State).2 = (0, []) ∧
    (LokiTransport.flush wDeliver c1State).1.timerActive = false ∧
    (LokiTransport.flush wDeliver c1State).1.isFlushing = false := by
  decide

/-- C2 (failing evaluation): `Logger.error` has signature
`error(message, metadata?)` and forwards its second argument verbatim as the
metadata record — there is no error-like overload and no third parameter.
Called with a standard `Error` instance (whose own enumerable property list
is empty), the produced entry's metadata is that empty record: none of the
claimed `error`/`errorName`/`errorStack` keys exist, and the emitted JSONL
object has no `error` field — contradicting the claim and the repository's
own test "should handle Error objects in error logs". -/
theorem c2_error_forwards_metadata_verbatim :
    c2Entry.metadata = some (errorOwnProps "Something went wrong" "Error" "stacktrace") ∧
    assocGet (c2Entry.metadata.getD []) "error" = none ∧
    assocGet (c2Entry.metadata.getD []) "errorName" = none ∧
    assocGet (c2Entry.metadata.getD []) "errorStack" = none ∧
    assocGet (formatJSONL c2Entry) "error" = none ∧
    c2Entry.message = "Operation failed" ∧
    c2Entry.level = "error" := by
  decide

/-- C8: any metadata key of a JSONL line — including one that collides with a
reserved field — ends up holding the metadata's value (the metadata spread
comes after the reserved fields, so metadata wins, last-write style); a
reserved field keeps its own value only when no metadata key collides with
it. -/
theorem c8_jsonl_metadata_overrides_reserved (e : LogEntry) (md : JsObject)
    (hmd : e.metadata = some md) (hnd : (md.map Prod.fst).Nodup) :
    (∀ k v, (k, v) ∈ md → assocGet (formatJSONL e) k = some v) ∧
    (¬ ("message" ∈ md.map Prod.fst) →
      assocGet (formatJSONL e) "message" = some (JsonValue.vStr e.message)) := by
  constructor
  · intro k v hm
    rw [formatJSONL, hmd]
    exact assocGet_jsSpread_of_mem _ _ _ _ hnd hm
  · intro hnm
    rw [formatJSONL, hmd]
    simp only [Option.getD_some]
    rw [assocGet_jsSpread_of_not_mem _ _ _ hnm]
    rfl

/-- C8 witness: a metadata key named `message` replaces the real message in
the emitted line. -/
theorem c8_jsonl_metadata_overrides_reserved_witness :
    assocGet (formatJSONL c8Entry) "message" = some (JsonValue.vStr "fake") :=
  (c8_jsonl_metadata_overrides_reserved c8Entry
      [("message", .vStr "fake"), ("x", .vNum 1)] rfl (by decide)).1
    "message" (.vStr "fake") (by decide)

/-- C9: the `event` label is added only when `metadata.event` is truthy: an
entry whose `event` value is falsy (for example the empty string) gets the
same label object as an entry with no `event` key at all (same service and
level), carries no `event` label of its own, and the two entries share one
stream. -/
theorem c9_falsy_event_label (e1 e2 : LogEntry) (static : List (String × String))
    (v : JsonValue) (hv : eventOf e1 = some v) (ht : v.truthy = false)
    (h2 : eventOf e2 = none) (hs : e1.service = e2.service)
    (hl : e1.level = e2.level) :
    buildLabels e1 static = buildLabels e2 static ∧
    (¬ ("event" ∈ static.map Prod.fst) →
      assocGet (buildLabels e1 static) "event" = none) ∧
    (formatLokiPayload [e1, e2] static).streams.length = 1 := by
  have hb1 : buildLabels e1 static
      = jsSpread [("service", JsonValue.vStr e1.service), ("level", JsonValue.vStr e1.level)]
          (static.map (fun p => (p.1, JsonValue.vStr p.2))) := by
    simp [buildLabels, hv, ht]
  have hb2 : buildLabels e2 static
      = jsSpread [("service", JsonValue.vStr e2.service), ("level", JsonValue.vStr e2.level)]
          (static.map (fun p => (p.1, JsonValue.vStr p.2))) := by
    simp [buildLabels, h2]
  have heq : buildLabels e1 static = buildLabels e2 static := by
    rw [hb1, hb2, hs, hl]
  refine ⟨heq, ?_, ?_⟩
  · intro hnm
    rw [hb1, assocGet_jsSpread_of_not_mem]
    · rfl
    · intro hmem
      apply hnm
      rw [List.map_map] at hmem
      simpa using hmem
  · have hg1 : insertGroup [] (buildLabels e1 static) e1
        = [(buildLabels e1 static, [e1])] := rfl
    have hget : assocGet [(buildLabels e1 static, [e1])] (buildLabels e1 static)
        = some [e1] := by
      rw [assocGet_cons, if_pos rfl]
    have hany : ([(buildLabels e1 static, [e1])].any
        (fun p => decide (p.1 = buildLabels e1 static))) = true := by
      simp
    have hg2 : insertGroup [(buildLabels e1 static, [e1])] (buildLabels e1 static) e2
        = [(buildLabels e1 static, [e1, e2])] := by
      rw [insertGroup, hget]
      rw [assocSet, if_pos hany]
      simp
    have hgroups : groupEntriesAux (fun e => buildLabels e static) [] [e1, e2]
        = [(buildLabels e1 static, [e1, e2])] := by
      show insertGroup (insertGroup [] (buildLabels e1 static) e1)
          (buildLabels e2 static) e2
          = [(buildLabels e1 static, [e1, e2])]
      rw [← heq, hg1, hg2]
    simp [formatLokiPayload, hgroups]

/-- C9 witness: empty-string `event` vs. absent `event`, concrete. -/
theorem c9_falsy_event_label_witness :
    buildLabels c9e1 c9static = buildLabels c9e2 c9static ∧
    assocGet (buildLabels c9e1 c9static) "event" = none ∧
    (formatLokiPayload [c9e1, c9e2] c9static).streams.length = 1 :=
  have h := c9_falsy_event_label c9e1 c9e2 c9static (.vStr "") rfl rfl rfl rfl rfl
  ⟨h.1, h.2.1 (by decide), h.2.2⟩

/-- C6 (counterexample): the grouping key is the stringified label object,
which is sensitive to own-property order.  With static labels
`{foo:"y", event:"x"}`, an entry carrying a truthy `metadata.event = "x"`
builds its label object with `event` in third position (the static spread
updates it in place), while an entry without `event` gets it appended last:
two label objects that are identical as mappings but different as ordered
objects, so the two entries land in two distinct streams — refuting the claim
that events with an identical derived label set share exactly one stream. -/
theorem c6_label_mapping_split_counterexample :
    (formatLokiPayload [c6e1, c6e2] c6static).streams.map (fun st => st.stream)
        = [c6labels1, c6labels2] ∧
    sameLabelMap c6labels1 c6labels2 = true ∧
    ¬ (c6labels1 = c6labels2) ∧
    (formatLokiPayload [c6e1, c6e2] c6static).streams.length = 2 := by
  decide

/-- C6 (amended): `formatLokiPayload` groups events by the *ordered* label
object — service, level, then `event` when truthy, then the remaining static
labels in configured order, a static key that already occurs keeping the
earlier position while its static value wins.  Events sharing that ordered
label object appear in exactly one stream and events differing in it appear
in distinct streams (so label sets that are equal as mappings but arise with
different key orders split into distinct streams); stream order is
first-occurrence order, event order within a stream is input order, and a
static label's value wins on key collision. -/
theorem c6_stream_grouping_amended (static : List (String × String)) (l : List LogEntry) :
    ((formatLokiPayload l static).streams.map (fun st => st.stream)
        = firstOcc (l.map (fun e => buildLabels e static))) ∧
    ((formatLokiPayload l static).streams.map (fun st => st.stream)).Nodup ∧
    (∀ st, st ∈ (formatLokiPayload l static).streams →
        st.values
          = (l.filter (fun e => decide (buildLabels e static = st.stream))).map valueOf) ∧
    (∀ (e : LogEntry) (k v : String), (static.map Prod.fst).Nodup → (k, v) ∈ static →
        assocGet (buildLabels e static) k = some (JsonValue.vStr v)) := by
  have hmapfst : (formatLokiPayload l static).streams.map (fun st => st.stream)
      = (groupEntriesAux (fun e => buildLabels e static) [] l).map Prod.fst := by
    show ((groupEntriesAux (fun e => buildLabels e static) [] l).map
        (fun g => (⟨g.1, g.2.map valueOf⟩ : LokiStream))).map (fun st => st.stream)
        = (groupEntriesAux (fun e => buildLabels e static) [] l).map Prod.fst
    rw [List.map_map]
    rfl
  have hnd : ((groupEntriesAux (fun e => buildLabels e static) [] l).map Prod.fst).Nodup := by
    rw [map_fst_groupEntriesAux]
    exact firstOccAux_nodup _ _ List.nodup_nil
  refine ⟨?_, ?_, ?_, ?_⟩
  · rw [hmapfst, map_fst_groupEntriesAux]
    rfl
  · rw [hmapfst]
    exact hnd
  · intro st hst
    have hst' : st ∈ (groupEntriesAux (fun e => buildLabels e static) [] l).map
        (fun g => (⟨g.1, g.2.map valueOf⟩ : LokiStream)) := hst
    obtain ⟨g, hg, hgst⟩ := List.mem_map.1 hst'
    have hmem : (g.1, g.2) ∈ groupEntriesAux (fun e => buildLabels e static) [] l := by
      simpa using hg
    have hget := assocGet_eq_of_mem _ _ _ hnd hmem
    rw [assocGet_groupEntriesAux] at hget
    have hnone : assocGet ([] : List (JsObject × List LogEntry)) g.1 = none := rfl
    rw [hnone] at hget
    rw [← hgst]
    show g.2.map valueOf
        = (l.filter (fun e => decide (buildLabels e static = g.1))).map valueOf
    cases hf : l.filter (fun e => decide (buildLabels e static = g.1)) with
    | nil =>
      rw [hf] at hget
      exact absurd hget (by simp [groupJoin])
    | cons x xs =>
      rw [hf] at hget
      have hjoin : groupJoin none (x :: xs) = some (x :: xs) := by
        simp [groupJoin]
      rw [hjoin] at hget
      rw [(Option.some.inj hget).symm]
  · intro e k v hnd' hm
    unfold buildLabels
    apply assocGet_jsSpread_of_mem
    · rw [List.map_map]
      simpa using hnd'
    · exact List.mem_map.2 ⟨(k, v), hm, rfl⟩

/-- C6 witness (amended claim): static-label precedence evaluated at a
concrete entry and static label set. -/
theorem c6_stream_grouping_amended_witness :
    assocGet (buildLabels c6e1 c6static) "foo" = some (JsonValue.vStr "y") :=
  (c6_stream_grouping_amended c6static [c6e1]).2.2.2 c6e1 "foo" "y"
    (by decide) (by decide)
